import Mathlib

/-!
Shallow embedding of `src/convert_otel_simple.py` (the whole repository):
a one-pass converter that reads a JSONL event log, extracts tool-call
records from `ToolInput` / `ToolOutput` events, prints a console summary
and writes a simplified YML report.

Python values decoded from JSON are modelled by `PyVal`; Python dicts are
association lists with unique keys (as produced by `json.loads`). JSON
numbers are modelled as integers: no claim depends on float formatting.
Machine-level concerns (file handles, stdout buffering) are modelled by
returning the would-be console lines and file contents in a `RunOutput`
record; an uncaught Python exception is an `Except.error`.
-/

/-- A Python value as produced by `json.loads` (plus `None`, `True`, `False`). -/
inductive PyVal where
  | none
  | bool (b : Bool)
  | int (n : Int)
  | str (s : String)
  | dict (fields : List (String × PyVal))
  | list (items : List PyVal)

/-- A Python dict with string keys, in insertion order, keys unique. -/
abbrev PyDict := List (String × PyVal)

/-- Key lookup in a Python dict (first match; keys are unique). -/
def dictFind? (d : PyDict) (k : String) : Option PyVal :=
  (d.find? (fun p => p.1 == k)).map (fun p => p.2)

/-- Python `d.get(k, dflt)`. -/
def pyGet (d : PyDict) (k : String) (dflt : PyVal) : PyVal :=
  (dictFind? d k).getD dflt

/-- Python `d.get(k)` (default `None`). -/
def pyGetN (d : PyDict) (k : String) : PyVal :=
  pyGet d k PyVal.none

/-- Python `d[k] = v`: update in place when the key exists, else append. -/
def dictSet : PyDict → String → PyVal → PyDict
  | [], k, v => [(k, v)]
  | (k0, v0) :: rest, k, v =>
    if k0 == k then (k0, v) :: rest else (k0, v0) :: dictSet rest k v

/-- Python truthiness of a value (`if tool_input:` etc.). -/
def truthy : PyVal → Bool
  | PyVal.none => false
  | PyVal.bool b => b
  | PyVal.int n => n != 0
  | PyVal.str s => !s.isEmpty
  | PyVal.dict [] => false
  | PyVal.dict (_ :: _) => true
  | PyVal.list [] => false
  | PyVal.list (_ :: _) => true

/-- Whether a value is a Python dict (an object with a `.get` method here). -/
def PyVal.isDict : PyVal → Bool
  | PyVal.dict _ => true
  | _ => false

/-- Python `v == s` for a string literal `s`: true exactly when `v` is an
equal string (no other JSON-representable value compares equal to a str). -/
def pyEqStr (v : PyVal) (s : String) : Bool :=
  match v with
  | PyVal.str t => t == s
  | _ => false

/-- Single-quote character, kept out of string literals. -/
def squote : Char := Char.ofNat 39

/-- Double-quote character. -/
def dquote : Char := Char.ofNat 34

/-- Backslash character. -/
def bslash : Char := Char.ofNat 92

/-- One character of Python `repr` of a str, given the chosen quote char.
Covers the escapes relevant to the values handled here (backslash, the
quote, newline, carriage return, tab); other characters render as-is. -/
def pyEscapeChar (q c : Char) : List Char :=
  if c = bslash then [bslash, bslash]
  else if c = q then [bslash, q]
  else if c = Char.ofNat 10 then [bslash, 'n']
  else if c = Char.ofNat 13 then [bslash, 'r']
  else if c = Char.ofNat 9 then [bslash, 't']
  else [c]

/-- Python `repr` of a str: single-quoted, double-quoted when the text
holds a single quote but no double quote. -/
def pyStrLit (s : String) : String :=
  let q := if s.contains squote && !(s.contains dquote) then dquote else squote
  String.mk (q :: ((s.data.map (pyEscapeChar q)).flatten ++ [q]))

mutual

/-- Python `repr` of a value (`str` and `repr` agree except on str). -/
def pyRepr : PyVal → String
  | PyVal.none => "None"
  | PyVal.bool true => "True"
  | PyVal.bool false => "False"
  | PyVal.int n => toString n
  | PyVal.str s => pyStrLit s
  | PyVal.dict fields => "\x7b" ++ pyReprFields fields ++ "\x7d"
  | PyVal.list items => "[" ++ pyReprItems items ++ "]"

/-- Comma-separated `repr` of dict entries. -/
def pyReprFields : List (String × PyVal) → String
  | [] => ""
  | [(k, v)] => pyStrLit k ++ ": " ++ pyRepr v
  | (k, v) :: rest => pyStrLit k ++ ": " ++ pyRepr v ++ ", " ++ pyReprFields rest

/-- Comma-separated `repr` of list items. -/
def pyReprItems : List PyVal → String
  | [] => ""
  | [v] => pyRepr v
  | v :: rest => pyRepr v ++ ", " ++ pyReprItems rest

end

/-- Python `str` of a value, as used by f-string interpolation. -/
def pyStr : PyVal → String
  | PyVal.str s => s
  | v => pyRepr v

/-- The uncaught Python exceptions the script can raise while processing:
`json.loads` failures and attribute errors from calling `.get` on a
non-dict. -/
inductive PyExc where
  | jsonDecodeError
  | attributeError

/-- The dict literal appended for a triggering `ToolInput` event
(source lines 16-21), given the event dict `d`, the already-resolved
`tool_input` dict `ti` and the resolved `data.get('timing', {})` dict. -/
def mkToolCall (d ti timing : PyDict) : PyDict :=
  [("tool_name", pyGetN ti "tool_name"),
   ("start_time", pyGetN d "timestamp"),
   ("input", pyGet ti "tool_args" (PyVal.dict [])),
   ("duration_ms", pyGet timing "step_timeuse_ms" (PyVal.int 0))]

/-- Mutation of the last element of a Python list (`tool_calls[-1]`). -/
def setLast : List PyDict → (PyDict → PyDict) → List PyDict
  | [], _ => []
  | [c], f => [f c]
  | c :: c2 :: rest, f => c :: setLast (c2 :: rest) f

/-- Source lines 25-26: `tool_calls[-1]['output'] = tool_output.get('results', '')`
and `tool_calls[-1]['success'] = tool_output.get('success', False)`. -/
def attachOutput (tool_output : PyDict) (call : PyDict) : PyDict :=
  dictSet (dictSet call "output" (pyGet tool_output "results" (PyVal.str "")))
    "success" (pyGet tool_output "success" (PyVal.bool false))

/-- One iteration of the extraction loop (source lines 13-26) on a decoded
line `data`. Calling `.get` on a non-dict raises `AttributeError`. -/
def stepLine (tool_calls : List PyDict) (data : PyVal) : Except PyExc (List PyDict) :=
  match data with
  | PyVal.dict d =>
    if pyEqStr (pyGetN d "event_type") "ToolInput" then
      let tool_input := pyGet d "tool_input" (PyVal.dict [])
      if truthy tool_input then
        match tool_input with
        | PyVal.dict ti =>
          match pyGet d "timing" (PyVal.dict []) with
          | PyVal.dict timing => Except.ok (tool_calls ++ [mkToolCall d ti timing])
          | _ => Except.error PyExc.attributeError
        | _ => Except.error PyExc.attributeError
      else Except.ok tool_calls
    else if pyEqStr (pyGetN d "event_type") "ToolOutput" then
      let tool_output := pyGet d "tool_output" (PyVal.dict [])
      match tool_calls with
      | [] => Except.ok tool_calls
      | _ :: _ =>
        match tool_output with
        | PyVal.dict t => Except.ok (setLast tool_calls (attachOutput t))
        | _ => Except.error PyExc.attributeError
    else Except.ok tool_calls
  | _ => Except.error PyExc.attributeError

/-- One iteration of the file loop (source lines 9-10): `json.loads` on a
malformed line raises; a decoded line is processed by the extraction
branch. A line is modelled by its decode outcome. -/
def stepFile (tool_calls : List PyDict) (line : Option PyVal) : Except PyExc (List PyDict) :=
  match line with
  | Option.none => Except.error PyExc.jsonDecodeError
  | Option.some data => stepLine tool_calls data

/-- The whole extraction loop (source lines 7-26). -/
def extract (lines : List (Option PyVal)) : Except PyExc (List PyDict) :=
  List.foldlM stepFile [] lines

/-- One console line per record (source line 30):
`f"  {i+1}. {call.get('tool_name', 'Unknown')} - {call.get('input', {})}"`. -/
def consoleLine (i : Nat) (call : PyDict) : String :=
  "  " ++ toString (i + 1) ++ ". " ++ pyStr (pyGet call "tool_name" (PyVal.str "Unknown"))
    ++ " - " ++ pyStr (pyGet call "input" (PyVal.dict []))

/-- The console summary (source lines 28-30). -/
def consoleLines (tool_calls : List PyDict) : List String :=
  ("Found " ++ toString tool_calls.length ++ " tool calls:")
    :: (tool_calls.enum.map fun p => consoleLine p.1 p.2)

/-- The fixed YML header (source lines 33-35); the f-string holds no
interpolation, the session id is a literal. -/
def ymlHeader : String :=
  "session_id: 306114a3-3d36-43bb-ac40-335fef6307ac\ntool_calls:\n"

/-- One YML entry per record (source lines 38-42). -/
def ymlEntry (call : PyDict) : String :=
  "  - tool_name: " ++ pyStr (pyGet call "tool_name" (PyVal.str "Unknown"))
    ++ "\n    start_time: \"" ++ pyStr (pyGet call "start_time" (PyVal.str ""))
    ++ "\"\n    input: " ++ pyStr (pyGet call "input" (PyVal.dict []))
    ++ "\n    duration_ms: " ++ pyStr (pyGet call "duration_ms" (PyVal.int 0))
    ++ "\n"

/-- The full YML text (source lines 33-42). -/
def ymlContent (tool_calls : List PyDict) : String :=
  ymlHeader ++ String.join (tool_calls.map ymlEntry)

/-- CPython `str.replace` for a non-empty pattern (the source passes the
literal `'.jsonl'`): every non-overlapping occurrence is replaced, scanning
left to right. The `Nat` argument counts pattern characters still to skip
after a match. -/
def replaceGo (pat rep : List Char) : List Char → Nat → List Char
  | [], _ => []
  | _ :: rest, skip + 1 => replaceGo pat rep rest skip
  | c :: rest, 0 =>
    if pat.isPrefixOf (c :: rest) then rep ++ replaceGo pat rep rest (pat.length - 1)
    else c :: replaceGo pat rep rest 0

/-- Python `s.replace(pat, rep)` for non-empty `pat`. -/
def pyReplace (s pat rep : String) : String :=
  String.mk (replaceGo pat.data rep.data s.data 0)

/-- Source line 45: `yml_path = file_path.replace('.jsonl', '.yml')`. -/
def yml_path (file_path : String) : String :=
  pyReplace file_path ".jsonl" ".yml"

/-- Observable effects of a successful run: the printed console lines, the
destination path, the text written there, and the final printed message. -/
structure RunOutput where
  console : List String
  ymlPath : String
  ymlText : String
  finalMessage : String

/-- The whole script on a source path and the decode outcomes of the input
lines: extraction (lines 7-26), console report (28-30), YML rendering and
write (33-47), final message (49). An uncaught exception yields `error`
and none of the effects happen. -/
def runConvert (file_path : String) (lines : List (Option PyVal)) : Except PyExc RunOutput :=
  match extract lines with
  | Except.error e => Except.error e
  | Except.ok tool_calls =>
    Except.ok
      { console := consoleLines tool_calls
        ymlPath := yml_path file_path
        ymlText := ymlContent tool_calls
        finalMessage := "\nConverted to: " ++ yml_path file_path }

/-- Well-formed event per the spec's data model: the decoded line is a
mapping and the `tool_input`, `tool_output` and `timing` fields, when
present, are mappings. On such events the extraction loop cannot raise. -/
def wfEvent : PyVal → Bool
  | PyVal.dict d =>
    (pyGet d "tool_input" (PyVal.dict [])).isDict
      && (pyGet d "tool_output" (PyVal.dict [])).isDict
      && (pyGet d "timing" (PyVal.dict [])).isDict
  | _ => false

/-- An event that appends a record: `event_type == 'ToolInput'` with a
truthy (non-empty) `tool_input`. -/
def isTrigger : PyVal → Bool
  | PyVal.dict d =>
    pyEqStr (pyGetN d "event_type") "ToolInput"
      && truthy (pyGet d "tool_input" (PyVal.dict []))
  | _ => false

/-- The record a triggering well-formed event appends, resolved the same
way the loop body resolves `tool_input` and `data.get('timing', {})`. -/
def toolCallOfEvent : PyVal → PyDict
  | PyVal.dict d =>
    match pyGet d "tool_input" (PyVal.dict []), pyGet d "timing" (PyVal.dict []) with
    | PyVal.dict ti, PyVal.dict timing => mkToolCall d ti timing
    | _, _ => []
  | _ => []

/-- Whether a record field survives `stripOutput`. -/
def keepField (p : String × PyVal) : Bool :=
  !(p.1 == "output" || p.1 == "success")

/-- A record with the later-attached `output` / `success` fields removed,
leaving the four construction-time fields. -/
def stripOutput (call : PyDict) : PyDict :=
  call.filter keepField

/-- Sample event: the spec's scenario line 1 (a full `ToolInput`). -/
def ev1W : PyVal := PyVal.dict
  [("event_type", PyVal.str "ToolInput"), ("timestamp", PyVal.str "t1"),
   ("tool_input", PyVal.dict
     [("tool_name", PyVal.str "search"),
      ("tool_args", PyVal.dict [("q", PyVal.str "cats")])]),
   ("timing", PyVal.dict [("step_timeuse_ms", PyVal.int 120)])]

/-- Sample event: the spec's scenario line 2 (`ToolOutput`), as a dict. -/
def evOutD : PyDict :=
  [("event_type", PyVal.str "ToolOutput"),
   ("tool_output", PyVal.dict
     [("results", PyVal.str "3 hits"), ("success", PyVal.bool true)])]

/-- Sample event: the spec's scenario line 2 as a value. -/
def ev2W : PyVal := PyVal.dict evOutD

/-- The `tool_output` mapping of `ev2W`. -/
def toW : PyDict :=
  [("results", PyVal.str "3 hits"), ("success", PyVal.bool true)]

/-- Sample event: the spec's scenario line 3 (`ToolInput`, empty args). -/
def ev3W : PyVal := PyVal.dict
  [("event_type", PyVal.str "ToolInput"), ("timestamp", PyVal.str "t2"),
   ("tool_input", PyVal.dict
     [("tool_name", PyVal.str "fetch"), ("tool_args", PyVal.dict [])])]

/-- The record extracted from `ev1W`. -/
def callW : PyDict :=
  [("tool_name", PyVal.str "search"), ("start_time", PyVal.str "t1"),
   ("input", PyVal.dict [("q", PyVal.str "cats")]),
   ("duration_ms", PyVal.int 120)]

/-- Sample event whose non-empty `tool_input` has no `tool_name`. -/
def evMissingName : PyVal := PyVal.dict
  [("event_type", PyVal.str "ToolInput"), ("timestamp", PyVal.str "t1"),
   ("tool_input", PyVal.dict [("tool_args", PyVal.dict [])])]

/-- Sample event with `tool_name` but no `timestamp`. -/
def evMissingTimestamp : PyVal := PyVal.dict
  [("event_type", PyVal.str "ToolInput"),
   ("tool_input", PyVal.dict
     [("tool_name", PyVal.str "search"), ("tool_args", PyVal.dict [])])]

/-- A `tool_input` mapping holding only a `tool_name`. -/
def tiC6 : PyDict := [("tool_name", PyVal.str "probe")]

/-- Sample `ToolInput` event dict with no `timing` and no `tool_args`. -/
def dC6 : PyDict :=
  [("event_type", PyVal.str "ToolInput"), ("tool_input", PyVal.dict tiC6)]

/-- A value satisfying `isDict` is a dict. -/
theorem isDict_exists {v : PyVal} (h : v.isDict = true) : ∃ d, v = PyVal.dict d := by
  cases v with
  | dict f => exact ⟨f, rfl⟩
  | none => exact absurd h (by simp [PyVal.isDict])
  | bool b => exact absurd h (by simp [PyVal.isDict])
  | int n => exact absurd h (by simp [PyVal.isDict])
  | str s => exact absurd h (by simp [PyVal.isDict])
  | list l => exact absurd h (by simp [PyVal.isDict])

/-- The four construction-time fields all survive `stripOutput`. -/
theorem stripOutput_mkToolCall (d ti timing : PyDict) :
    stripOutput (mkToolCall d ti timing) = mkToolCall d ti timing := rfl

/-- Setting a stripped-out key leaves the stripped record unchanged. -/
theorem stripOutput_dictSet (c : PyDict) (k : String) (v : PyVal)
    (hk : keepField (k, v) = false) :
    stripOutput (dictSet c k v) = stripOutput c := by
  induction c with
  | nil => simp [stripOutput, dictSet, List.filter_cons, hk]
  | cons p rest ih =>
    obtain ⟨k0, v0⟩ := p
    by_cases h0 : (k0 == k) = true
    · have hk0 : k0 = k := eq_of_beq h0
      subst hk0
      have hv0 : keepField (k0, v0) = false := hk
      simp [dictSet, stripOutput, List.filter_cons, hk, hv0]
    · rw [Bool.not_eq_true] at h0
      simp only [dictSet, h0, Bool.false_eq_true, if_false]
      simp only [stripOutput, List.filter_cons] at ih ⊢
      by_cases hkeep : keepField (k0, v0) = true
      · simp [hkeep, ih]
      · rw [Bool.not_eq_true] at hkeep
        simp [hkeep, ih]

/-- Attaching `output` / `success` does not change the stripped record. -/
theorem stripOutput_attachOutput (t c : PyDict) :
    stripOutput (attachOutput t c) = stripOutput c := by
  unfold attachOutput
  rw [stripOutput_dictSet _ _ _ (by rfl), stripOutput_dictSet _ _ _ (by rfl)]

/-- Reading a key other than the one set is unaffected by `dictSet`. -/
theorem pyGet_dictSet_ne (c : PyDict) (k k2 : String) (v dflt : PyVal)
    (h : (k2 == k) = false) :
    pyGet (dictSet c k v) k2 dflt = pyGet c k2 dflt := by
  have hk2 : k2 ≠ k := by exact beq_eq_false_iff_ne.mp h
  have hkk2 : (k == k2) = false := beq_eq_false_iff_ne.mpr (fun e => hk2 e.symm)
  induction c with
  | nil => simp [dictSet, pyGet, dictFind?, List.find?, hkk2]
  | cons p rest ih =>
    obtain ⟨k0, v0⟩ := p
    by_cases h0 : (k0 == k) = true
    · have hk0 : k0 = k := eq_of_beq h0
      subst hk0
      simp [dictSet, pyGet, dictFind?, List.find?, hkk2]
    · rw [Bool.not_eq_true] at h0
      by_cases h2 : (k0 == k2) = true
      · simp [dictSet, h0, pyGet, dictFind?, List.find?, h2]
      · rw [Bool.not_eq_true] at h2
        simp only [dictSet, h0, Bool.false_eq_true, if_false]
        simp only [pyGet, dictFind?, List.find?, h2] at ih ⊢
        exact ih

/-- Reading one of the four rendered fields is unaffected by attaching
`output` / `success`. -/
theorem pyGet_attachOutput (t c : PyDict) (k2 : String) (dflt : PyVal)
    (h1 : (k2 == "output") = false) (h2 : (k2 == "success") = false) :
    pyGet (attachOutput t c) k2 dflt = pyGet c k2 dflt := by
  unfold attachOutput
  rw [pyGet_dictSet_ne _ _ _ _ _ h2, pyGet_dictSet_ne _ _ _ _ _ h1]

/-- A rendered YML entry ignores attached `output` / `success` fields. -/
theorem ymlEntry_attachOutput (t c : PyDict) :
    ymlEntry (attachOutput t c) = ymlEntry c := by
  unfold ymlEntry
  rw [pyGet_attachOutput _ _ _ _ (by rfl) (by rfl),
    pyGet_attachOutput _ _ _ _ (by rfl) (by rfl),
    pyGet_attachOutput _ _ _ _ (by rfl) (by rfl),
    pyGet_attachOutput _ _ _ _ (by rfl) (by rfl)]

/-- Mapping a function that ignores the last-element mutation commutes
with `setLast`. -/
theorem map_setLast {γ : Type} (f : PyDict → PyDict) (g : PyDict → γ)
    (h : ∀ c, g (f c) = g c) :
    ∀ l : List PyDict, (setLast l f).map g = l.map g
  | [] => rfl
  | [c] => by simp [setLast, h]
  | c :: c2 :: rest => by
    simp only [setLast, List.map_cons, List.cons.injEq, true_and]
    have := map_setLast f g h (c2 :: rest)
    simpa using this

/-- On a well-formed event the loop body never raises: it appends the
event's record when the event triggers, mutates only `output` / `success`
fields on a `ToolOutput`, and otherwise leaves the sequence unchanged. -/
theorem stepLine_wf (acc : List PyDict) (data : PyVal) (h : wfEvent data = true) :
    ∃ out, stepLine acc data = Except.ok out ∧
      out.map stripOutput = acc.map stripOutput
        ++ (if isTrigger data then [toolCallOfEvent data] else []) := by
  cases data with
  | dict d =>
    simp only [wfEvent, Bool.and_eq_true] at h
    obtain ⟨⟨h1, h2⟩, h3⟩ := h
    by_cases he : pyEqStr (pyGetN d "event_type") "ToolInput" = true
    · obtain ⟨ti, hti⟩ := isDict_exists h1
      by_cases htr : truthy (PyVal.dict ti) = true
      · obtain ⟨timing, htm⟩ := isDict_exists h3
        refine ⟨acc ++ [mkToolCall d ti timing], ?_, ?_⟩
        · simp [stepLine, he, hti, htr, htm]
        · have htrig : isTrigger (PyVal.dict d) = true := by
            simp [isTrigger, he, hti, htr]
          have hcall : toolCallOfEvent (PyVal.dict d) = mkToolCall d ti timing := by
            simp [toolCallOfEvent, hti, htm]
          simp [htrig, hcall, stripOutput_mkToolCall]
      · rw [Bool.not_eq_true] at htr
        refine ⟨acc, ?_, ?_⟩
        · simp [stepLine, he, hti, htr]
        · have htrig : isTrigger (PyVal.dict d) = false := by
            simp [isTrigger, hti, htr]
          simp [htrig]
    · rw [Bool.not_eq_true] at he
      have htrig : isTrigger (PyVal.dict d) = false := by
        simp [isTrigger, he]
      by_cases ho : pyEqStr (pyGetN d "event_type") "ToolOutput" = true
      · obtain ⟨t, hto⟩ := isDict_exists h2
        cases acc with
        | nil =>
          refine ⟨[], ?_, ?_⟩
          · simp [stepLine, he, ho, hto]
          · simp [htrig]
        | cons a rest =>
          refine ⟨setLast (a :: rest) (attachOutput t), ?_, ?_⟩
          · simp [stepLine, he, ho, hto]
          · rw [map_setLast _ _ (stripOutput_attachOutput t)]
            simp [htrig]
      · rw [Bool.not_eq_true] at ho
        refine ⟨acc, ?_, ?_⟩
        · simp [stepLine, he, ho]
        · simp [htrig]
  | none => simp [wfEvent] at h
  | bool b => simp [wfEvent] at h
  | int n => simp [wfEvent] at h
  | str s => simp [wfEvent] at h
  | list l => simp [wfEvent] at h

/-- Folding the loop body over well-formed events, from any already
accumulated sequence: the run succeeds and, up to later-attached
`output` / `success` fields, appends exactly one record per triggering
event, in stream order. -/
theorem extract_strip_go (events : List PyVal) :
    ∀ acc : List PyDict, (∀ e ∈ events, wfEvent e = true) →
    ∃ r, List.foldlM stepFile acc (events.map Option.some) = Except.ok r ∧
      r.map stripOutput = acc.map stripOutput
        ++ (events.filter (fun e => isTrigger e)).map toolCallOfEvent := by
  induction events with
  | nil =>
    intro acc _
    exact ⟨acc, rfl, by simp⟩
  | cons e es ih =>
    intro acc h
    obtain ⟨out, hstep, hmap⟩ := stepLine_wf acc e (h e (by simp))
    obtain ⟨r, hfold, hr⟩ := ih out (fun x hx => h x (by simp [hx]))
    refine ⟨r, ?_, ?_⟩
    · simp only [List.map_cons, List.foldlM_cons]
      rw [show stepFile acc (Option.some e) = stepLine acc e from rfl, hstep]
      exact hfold
    · rw [hr, hmap]
      by_cases ht : isTrigger e = true
      · simp [List.filter_cons, ht, List.append_assoc]
      · rw [Bool.not_eq_true] at ht
        simp [List.filter_cons, ht]

/-- Once at least the rest of the list remains to skip, the scan emits
nothing more. -/
theorem replaceGo_skip_all (pat rep : List Char) :
    ∀ (l : List Char) (skip : Nat), l.length ≤ skip → replaceGo pat rep l skip = []
  | [], _, _ => rfl
  | _ :: rest, skip + 1, h => by
    simp only [replaceGo]
    exact replaceGo_skip_all pat rep rest skip (by simpa using h)
  | c :: rest, 0, h => by simp at h

/-- A strictly shorter prefix of a list is a prefix of its `dropLast`. -/
theorem pref_dropLast {x y : List Char} (h : x <+: y) (hlen : x.length < y.length) :
    x <+: y.dropLast := by
  obtain ⟨t, rfl⟩ := h
  have ht : t ≠ [] := by
    intro h0
    subst h0
    simp at hlen
  rw [List.dropLast_append_of_ne_nil x ht]
  exact ⟨t.dropLast, rfl⟩

/-- When the pattern occurs in `p ++ pat` only as the trailing block, the
scan copies `p` and replaces the trailing block. -/
theorem replaceGo_trailing (pat rep : List Char) (hne : pat ≠ []) :
    ∀ p : List Char, ¬ pat <:+: (p ++ pat.dropLast) →
      replaceGo pat rep (p ++ pat) 0 = p ++ rep
  | [], _ => by
    match pat, hne with
    | c :: pr, _ =>
      simp only [List.nil_append, replaceGo]
      rw [if_pos (by rw [ List.isPrefixOf_iff_prefix])]
      rw [replaceGo_skip_all (c :: pr) rep pr ((c :: pr).length - 1) (by simp)]
      simp
  | a :: p, h => by
    show replaceGo pat rep (a :: (p ++ pat)) 0 = a :: (p ++ rep)
    by_cases hpre : pat.isPrefixOf (a :: (p ++ pat)) = true
    · exfalso
      have hp : pat <+: a :: (p ++ pat) := by
        rw [← List.isPrefixOf_iff_prefix]
        exact hpre
      have hlen : pat.length < (a :: (p ++ pat)).length := by
        simp only [List.length_cons, List.length_append]
        omega
      have hd : pat <+: (a :: (p ++ pat)).dropLast := pref_dropLast hp hlen
      have hd2 : (a :: (p ++ pat)).dropLast = a :: (p ++ pat.dropLast) := by
        rw [show a :: (p ++ pat) = (a :: p) ++ pat from rfl,
          List.dropLast_append_of_ne_nil (a :: p) hne]
        rfl
      rw [hd2] at hd
      exact h ( List.IsPrefix.isInfix hd)
    · rw [Bool.not_eq_true] at hpre
      simp only [replaceGo, hpre, Bool.false_eq_true, if_false, List.cons.injEq, true_and]
      refine replaceGo_trailing pat rep hne p (fun hc => h ?_)
      exact List.infix_cons hc

/-- Claim C1: on a well-formed input stream, extraction succeeds and
returns exactly one ToolCall record per `ToolInput` event carrying a
non-empty `tool_input` (other events, and `ToolInput` events with an
empty or absent `tool_input`, contribute nothing), in the order of their
triggering events; `stripOutput` removes only the `output` / `success`
fields a later `ToolOutput` may attach to a record. -/
theorem extract_one_record_per_toolinput (events : List PyVal)
    (h : ∀ e ∈ events, wfEvent e = true) :
    ∃ r, extract (events.map Option.some) = Except.ok r ∧
      r.map stripOutput = (events.filter (fun e => isTrigger e)).map toolCallOfEvent := by
  obtain ⟨r, h1, h2⟩ := extract_strip_go events [] h
  exact ⟨r, h1, by simpa using h2⟩

/-- Witness for C1 at the spec's three-event scenario. -/
theorem extract_one_record_per_toolinput_witness :
    (∀ e ∈ [ev1W, ev2W, ev3W], wfEvent e = true) ∧
    ∃ r, extract ([ev1W, ev2W, ev3W].map Option.some) = Except.ok r ∧
      r.map stripOutput
        = ([ev1W, ev2W, ev3W].filter (fun e => isTrigger e)).map toolCallOfEvent :=
  ⟨by decide, extract_one_record_per_toolinput [ev1W, ev2W, ev3W] (by decide)⟩

/-- Claim C2: appending a `ToolOutput` event to any stream whose
extraction succeeded attaches `tool_output.results` (default the empty
string) and `tool_output.success` (default false) to the last record --
`dictSet` overwrites any value a previous `ToolOutput` attached -- and
when no record exists yet the event is discarded and the sequence is
unchanged. -/
theorem toolOutput_attaches_to_last (lines : List (Option PyVal))
    (calls : List PyDict) (d to_ : PyDict)
    (hex : extract lines = Except.ok calls)
    (het : pyGetN d "event_type" = PyVal.str "ToolOutput")
    (hto : pyGet d "tool_output" (PyVal.dict []) = PyVal.dict to_) :
    extract (lines ++ [Option.some (PyVal.dict d)])
        = Except.ok (setLast calls (attachOutput to_))
    ∧ (calls = [] →
        extract (lines ++ [Option.some (PyVal.dict d)]) = Except.ok calls) := by
  have hstep : stepLine calls (PyVal.dict d)
      = Except.ok (setLast calls (attachOutput to_)) := by
    cases calls with
    | nil => simp [stepLine, het, hto, pyEqStr, setLast]
    | cons a rest => simp [stepLine, het, hto, pyEqStr]
  have hmain : extract (lines ++ [Option.some (PyVal.dict d)])
      = Except.ok (setLast calls (attachOutput to_)) := by
    unfold extract at hex ⊢
    rw [List.foldlM_append, hex]
    show List.foldlM stepFile calls [Option.some (PyVal.dict d)] = _
    rw [List.foldlM_cons]
    show (stepLine calls (PyVal.dict d) >>= fun b => List.foldlM stepFile b []) = _
    rw [hstep]
    rfl
  refine ⟨hmain, fun hc => ?_⟩
  rw [hmain, hc]
  rfl

/-- Witness for C2: the spec scenario's output event after its first
input event. -/
theorem toolOutput_attaches_to_last_witness :
    extract ([Option.some ev1W] ++ [Option.some (PyVal.dict evOutD)])
        = Except.ok (setLast [callW] (attachOutput toW))
    ∧ ([callW] = [] →
        extract ([Option.some ev1W] ++ [Option.some (PyVal.dict evOutD)])
          = Except.ok [callW]) :=
  toolOutput_attaches_to_last [Option.some ev1W] [callW] evOutD toW rfl rfl rfl

/-- Claim C3 is false of the code (code bug): a ToolCall whose triggering
event has a non-empty `tool_input` but no `tool_name` renders as the
literal `None`, not `Unknown`, in both the console line and the YML
entry: extraction stores Python `None` under the `tool_name` key, so the
rendering default `'Unknown'` never applies. -/
theorem missing_tool_name_renders_None :
    ∃ out, runConvert "s.jsonl" [Option.some evMissingName] = Except.ok out ∧
      out.console = ["Found 1 tool calls:", "  1. None - \x7b\x7d"] ∧
      out.ymlText = "session_id: 306114a3-3d36-43bb-ac40-335fef6307ac\ntool_calls:\n  - tool_name: None\n    start_time: \"t1\"\n    input: \x7b\x7d\n    duration_ms: 0\n" :=
  ⟨_, rfl, rfl, rfl⟩

/-- Claim C4 counterexample: with `.jsonl` in a non-trailing path
segment, `str.replace` rewrites that segment too, so the destination is
not the source with only its trailing suffix replaced. -/
theorem yml_path_rewrites_nontrailing :
    yml_path "a.jsonl/b.jsonl" = "a.yml/b.yml"
    ∧ ("a.yml/b.yml" : String) ≠ "a.jsonl/b.yml" :=
  ⟨rfl, by decide⟩

/-- Claim C4 as amended: the code replaces every occurrence of `.jsonl`;
for a source path whose only occurrence of `.jsonl` is its trailing
suffix, the destination is the source with that suffix replaced by
`.yml` and nothing else altered. -/
theorem yml_path_trailing_suffix (p : String)
    (h : ¬ (".jsonl".data <:+: (p.data ++ ".json".data))) :
    yml_path (p ++ ".jsonl") = p ++ ".yml" := by
  obtain ⟨pl⟩ := p
  show String.mk (replaceGo ".jsonl".data ".yml".data (pl ++ ".jsonl".data) 0)
      = String.mk (pl ++ ".yml".data)
  exact congrArg String.mk (replaceGo_trailing ".jsonl".data ".yml".data (by decide) pl h)

/-- Witness for the amended C4 on an ordinary session path. -/
theorem yml_path_trailing_suffix_witness :
    (¬ (".jsonl".data <:+: ("logs/session_1".data ++ ".json".data)))
    ∧ yml_path ("logs/session_1" ++ ".jsonl") = "logs/session_1" ++ ".yml" :=
  ⟨by decide, yml_path_trailing_suffix "logs/session_1" (by decide)⟩

/-- Claim C5: a line that fails to decode aborts the run, whatever was
extracted before it: the result is an error, so no console report is
produced and no destination file is written. -/
theorem malformed_line_aborts (file_path : String) (pre post : List (Option PyVal)) :
    ∃ e, runConvert file_path (pre ++ Option.none :: post) = Except.error e := by
  have hx : ∃ e, extract (pre ++ Option.none :: post) = Except.error e := by
    unfold extract
    cases hf : List.foldlM stepFile ([] : List PyDict) pre with
    | error e =>
      refine ⟨e, ?_⟩
      rw [List.foldlM_append, hf]
      rfl
    | ok acc =>
      refine ⟨PyExc.jsonDecodeError, ?_⟩
      rw [List.foldlM_append, hf]
      show List.foldlM stepFile acc (Option.none :: post) = _
      rw [List.foldlM_cons]
      rfl
  obtain ⟨e, he⟩ := hx
  exact ⟨e, by simp [runConvert, he]⟩

/-- Claim C6: a triggering `ToolInput` event with no `timing` mapping, or
a `timing` mapping lacking `step_timeuse_ms`, yields a record whose
`duration_ms` is 0; a `tool_input` lacking `tool_args` yields a record
whose `input` is the empty mapping. -/
theorem toolinput_missing_fields_default (tool_calls : List PyDict) (d ti : PyDict)
    (het : pyGetN d "event_type" = PyVal.str "ToolInput")
    (hti : pyGet d "tool_input" (PyVal.dict []) = PyVal.dict ti)
    (htr : truthy (PyVal.dict ti) = true)
    (htm : (pyGet d "timing" (PyVal.dict [])).isDict = true) :
    ∃ tc, stepLine tool_calls (PyVal.dict d) = Except.ok (tool_calls ++ [tc]) ∧
      ((dictFind? d "timing" = Option.none ∨
          ∃ tg, dictFind? d "timing" = Option.some (PyVal.dict tg) ∧
            dictFind? tg "step_timeuse_ms" = Option.none) →
        dictFind? tc "duration_ms" = Option.some (PyVal.int 0)) ∧
      (dictFind? ti "tool_args" = Option.none →
        dictFind? tc "input" = Option.some (PyVal.dict [])) := by
  obtain ⟨timing, htg⟩ := isDict_exists htm
  refine ⟨mkToolCall d ti timing, ?_, ?_, ?_⟩
  · simp [stepLine, het, pyEqStr, hti, htr, htg]
  · intro hcase
    have hfind : dictFind? (mkToolCall d ti timing) "duration_ms"
        = Option.some (pyGet timing "step_timeuse_ms" (PyVal.int 0)) := by
      simp [mkToolCall, dictFind?, List.find?]
    rw [hfind]
    rcases hcase with hnone | ⟨tg, hsome, hmiss⟩
    · have h0 : pyGet d "timing" (PyVal.dict []) = PyVal.dict [] := by
        simp [pyGet, hnone]
      rw [htg] at h0
      injection h0 with h1
      subst h1
      simp [pyGet, dictFind?, List.find?]
    · have h0 : pyGet d "timing" (PyVal.dict []) = PyVal.dict tg := by
        simp [pyGet, hsome]
      rw [htg] at h0
      injection h0 with h1
      subst h1
      simp [pyGet, hmiss]
  · intro hmiss
    have hfind : dictFind? (mkToolCall d ti timing) "input"
        = Option.some (pyGet ti "tool_args" (PyVal.dict [])) := by
      simp [mkToolCall, dictFind?, List.find?]
    rw [hfind]
    simp [pyGet, hmiss]

/-- Witness for C6 on an event with no `timing` and no `tool_args`. -/
theorem toolinput_missing_fields_default_witness :
    ∃ tc, stepLine [] (PyVal.dict dC6) = Except.ok ([] ++ [tc]) ∧
      ((dictFind? dC6 "timing" = Option.none ∨
          ∃ tg, dictFind? dC6 "timing" = Option.some (PyVal.dict tg) ∧
            dictFind? tg "step_timeuse_ms" = Option.none) →
        dictFind? tc "duration_ms" = Option.some (PyVal.int 0)) ∧
      (dictFind? tiC6 "tool_args" = Option.none →
        dictFind? tc "input" = Option.some (PyVal.dict [])) :=
  toolinput_missing_fields_default [] dC6 tiC6 rfl rfl rfl rfl

/-- Claim C7 is false of the code (code bug): a ToolCall whose triggering
event has no `timestamp` renders `start_time: "None"`, not a quoted
empty string: extraction stores Python `None` under the `start_time`
key, so the rendering default `''` never applies. -/
theorem missing_timestamp_renders_None :
    ∃ out, runConvert "s.jsonl" [Option.some evMissingTimestamp] = Except.ok out ∧
      out.ymlText = "session_id: 306114a3-3d36-43bb-ac40-335fef6307ac\ntool_calls:\n  - tool_name: search\n    start_time: \"None\"\n    input: \x7b\x7d\n    duration_ms: 0\n" :=
  ⟨_, rfl, rfl⟩

/-- Claim C8: a YML entry exposes exactly the four fields `tool_name`,
`start_time`, `input`, `duration_ms` in that order, and neither an entry
nor the whole document changes when `output` / `success` are attached to
records. -/
theorem yml_entry_four_fields_no_output (call : PyDict) (calls : List PyDict)
    (t : PyDict) :
    ymlEntry (attachOutput t call) = ymlEntry call
    ∧ ymlContent (setLast calls (attachOutput t)) = ymlContent calls
    ∧ ∃ a b c e, ymlEntry call =
        "  - tool_name: " ++ a ++ "\n    start_time: \"" ++ b
          ++ "\"\n    input: " ++ c ++ "\n    duration_ms: " ++ e ++ "\n" := by
  refine ⟨ymlEntry_attachOutput t call, ?_, ⟨_, _, _, _, rfl⟩⟩
  unfold ymlContent
  rw [map_setLast _ _ (fun c => ymlEntry_attachOutput t c) calls]

/-- Claim C9: extraction is deterministic: two successful runs over the
same stream agree in length and field-for-field on every record. -/
theorem extract_deterministic (lines : List (Option PyVal)) (r1 r2 : List PyDict)
    (h1 : extract lines = Except.ok r1) (h2 : extract lines = Except.ok r2) :
    r1.length = r2.length ∧
      ∀ i (hi1 : i < r1.length) (hi2 : i < r2.length),
        r1.get ⟨i, hi1⟩ = r2.get ⟨i, hi2⟩ := by
  have heq : r1 = r2 := Except.ok.inj (h1.symm.trans h2)
  subst heq
  exact ⟨rfl, fun i hi1 hi2 => rfl⟩

/-- Witness for C9 on a one-event stream. -/
theorem extract_deterministic_witness :
    [callW].length = [callW].length ∧
      ∀ i (hi1 : i < [callW].length) (hi2 : i < [callW].length),
        [callW].get ⟨i, hi1⟩ = [callW].get ⟨i, hi2⟩ :=
  extract_deterministic [Option.some ev1W] [callW] [callW] rfl rfl

/-- Claim C10: on every successful run, whatever the source path and the
input lines, the document starts with the fixed literal
`session_id: 306114a3-3d36-43bb-ac40-335fef6307ac` line: the header
f-string holds no interpolation. -/
theorem session_id_constant (file_path : String) (lines : List (Option PyVal))
    (out : RunOutput) (h : runConvert file_path lines = Except.ok out) :
    ∃ rest, out.ymlText
        = "session_id: 306114a3-3d36-43bb-ac40-335fef6307ac\ntool_calls:\n" ++ rest := by
  unfold runConvert at h
  cases hex : extract lines with
  | error e =>
    rw [hex] at h
    exact absurd h (by simp)
  | ok calls =>
    rw [hex] at h
    have hout := Except.ok.inj h
    refine ⟨String.join (calls.map ymlEntry), ?_⟩
    rw [← hout]
    rfl

/-- Witness for C10 on an empty stream. -/
theorem session_id_constant_witness :
    ∃ rest,
      (RunOutput.mk ["Found 0 tool calls:"] "x.yml" ymlHeader
          "\nConverted to: x.yml").ymlText
        = "session_id: 306114a3-3d36-43bb-ac40-335fef6307ac\ntool_calls:\n" ++ rest :=
  session_id_constant "x.jsonl" [] _ rfl
